import Mathlib

/-!
# Verification of the ViewState decoder/encoder codec

A shallow embedding, in Lean 4, of the JavaScript ViewState codec
(`decoder.js`: class `ViewStateDecoder`; the editor module: class
`ViewStateEditor`), together with theorems settling the specification
claims about it.

Modelling conventions:

* The input octet buffer (a JS `Uint8Array`) is a `List Nat`; every octet
  produced by `atob` is `< 256`, and all concrete inputs in this file
  respect that bound.
* JS numbers that the codec manipulates as integers (tag bytes, varints,
  lengths, indices) are modelled as `Nat`/`Int` with the 32-bit
  truncations of JS bitwise operators (`|`, `&`, `<<`, `>>>`) made
  explicit (`toInt32`, masks `% 2 ^ 32`).
* Floating-point payloads (Double, Float, DateTime ticks, Color alpha
  and Unit rendering) are carried as their raw little-endian octets in
  the value tree; no claim inspects their numeric or rendered form.
  Where the original code stringifies such a value (object keys), the
  embedding returns `none` and the parse is flagged `unmodeled`; no
  claim exercises those paths.
* The statistics tallies (`this.stats`) are write-only counters that
  never influence parsing decisions or any claim; they are omitted from
  the state.
* Recursions that the source bounds dynamically (the varint reader stops
  at shift 35; the 7-bit encoder masks to 32 bits) are given an explicit
  iteration budget large enough that the budget-exhausted branch is
  unreachable; where that branch is reachable in principle it returns
  the same value the source's own guard would.
-/

namespace ViewState

/-- JS `ToInt32` of a bit pattern: interpret `bits % 2 ^ 32` as a signed
32-bit integer, as the result of JS `|`, `<<`, `&` operators. -/
def toInt32 (bits : Nat) : Int :=
  if bits % 2 ^ 32 < 2 ^ 31 then ((bits % 2 ^ 32 : Nat) : Int)
  else ((bits % 2 ^ 32 : Nat) : Int) - 2 ^ 32

/-- Decoder state: the two intern tables (`this.stringTable`,
`this.typeTable`), reset at the start of every `decode` call.
(The `stats` counters are omitted; they never feed back into parsing.) -/
structure DecState where
  stringTable : List String
  typeTable : List String
deriving Repr, DecidableEq

/-- `readByte` (decoder.js): returns 0 without advancing when the cursor
is at or past end-of-buffer, otherwise the octet at the cursor. -/
def readByteF (data : List Nat) (pos : Nat) : Nat × Nat :=
  if data.length ≤ pos then (0, pos) else (data.getD pos 0, pos + 1)

/-- The loop of `read7BitEncodedInt` (decoder.js).  JS semantics:
`result |= (byte & 0x7F) << shift` is a signed 32-bit accumulation; we
carry the accumulator's bit pattern (`bits < 2 ^ 32`) and convert with
`toInt32` on return.  The guard `shift >= 35 || position >= length`
returns the partial result without consuming.  The iteration budget
`k` only has to cover the at most five reads the shift guard allows;
when it runs out it returns exactly what the guard would. -/
def read7Aux (data : List Nat) : Nat → Nat → Nat → Nat → Int × Nat
  | 0, pos, bits, _ => (toInt32 bits, pos)
  | Nat.succ k, pos, bits, shift =>
    if 35 ≤ shift ∨ data.length ≤ pos then (toInt32 bits, pos)
    else
      let b := data.getD pos 0
      let bits1 := Nat.lor bits (b % 128 * 2 ^ shift % 2 ^ 32)
      if 128 ≤ b % 256 then read7Aux data k (pos + 1) bits1 (shift + 7)
      else (toInt32 bits1, pos + 1)

/-- `read7BitEncodedInt` (decoder.js): 7-bit little-endian varint read;
returns the (signed 32-bit) value and the new cursor. -/
def read7BitEncodedInt (data : List Nat) (pos : Nat) : Int × Nat :=
  read7Aux data 6 pos 0 0

/-- The loop of `encode7BitInt` (editor): while `value >= 128` push
`(value & 0x7F) | 0x80` and shift right by 7.  JS `&` and `>>>` first
truncate to 32 bits, hence the `% 2 ^ 32` masks.  Six iterations always
suffice (after one step the value is below `2 ^ 25`); the budget is
generous at 40. -/
def encode7Aux : Nat → Nat → List Nat
  | 0, value => [value % 256]
  | Nat.succ k, value =>
    if 128 ≤ value then
      (value % 2 ^ 32 % 128 + 128) :: encode7Aux k (value % 2 ^ 32 / 128)
    else [value]

/-- `encode7BitInt` (editor): 7-bit varint encoding of a non-negative
JS integer. -/
def encode7BitInt (value : Nat) : List Nat :=
  encode7Aux 40 value

/-- `readBytes` (decoder.js): read up to `count` octets, clamped to what
remains; advances by the clamped amount. -/
def readBytesN (data : List Nat) (pos count : Nat) : List Nat × Nat :=
  let avail := min count (data.length - pos)
  ((data.drop pos).take avail, pos + avail)

/-- One initial-state step of the WHATWG UTF-8 decoder (the behaviour of
`new TextDecoder('utf-8').decode`, which replaces malformed sequences
with U+FFFD and never throws — so the Latin-1 fallback in `readString`
is dead code).  Returns either an emitted character (ASCII or
replacement) or the multi-byte state `(codePoint, bytesNeeded, lower,
upper)`. -/
def utf8Start (b : Nat) : Char ⊕ (Nat × Nat × Nat × Nat) :=
  if b ≤ 0x7F then Sum.inl (Char.ofNat b)
  else if 0xC2 ≤ b ∧ b ≤ 0xDF then Sum.inr (b % 32, 1, 0x80, 0xBF)
  else if 0xE0 ≤ b ∧ b ≤ 0xEF then
    Sum.inr (b % 16, 2, if b = 0xE0 then 0xA0 else 0x80,
      if b = 0xED then 0x9F else 0xBF)
  else if 0xF0 ≤ b ∧ b ≤ 0xF4 then
    Sum.inr (b % 8, 3, if b = 0xF0 then 0x90 else 0x80,
      if b = 0xF4 then 0x8F else 0xBF)
  else Sum.inl (Char.ofNat 0xFFFD)

/-- The WHATWG UTF-8 decode loop with replacement.  State: pending code
point, continuation bytes still needed, and the admissible range for the
next continuation byte.  An invalid continuation byte emits U+FFFD and
is reconsumed in the initial state (inlined here so the recursion is
structural on the byte list). -/
def utf8Loop : List Nat → Nat → Nat → Nat → Nat → List Char
  | [], _, needed, _, _ => if needed ≠ 0 then [Char.ofNat 0xFFFD] else []
  | b :: rest, cp, needed, lower, upper =>
    if needed = 0 then
      match utf8Start b with
      | Sum.inl c => c :: utf8Loop rest 0 0 0x80 0xBF
      | Sum.inr (cp1, n1, lo1, up1) => utf8Loop rest cp1 n1 lo1 up1
    else if lower ≤ b ∧ b ≤ upper then
      let cp1 := cp * 64 + b % 64
      if needed = 1 then Char.ofNat cp1 :: utf8Loop rest 0 0 0x80 0xBF
      else utf8Loop rest cp1 (needed - 1) 0x80 0xBF
    else
      Char.ofNat 0xFFFD ::
        (match utf8Start b with
         | Sum.inl c => c :: utf8Loop rest 0 0 0x80 0xBF
         | Sum.inr (cp1, n1, lo1, up1) => utf8Loop rest cp1 n1 lo1 up1)

/-- UTF-8 decode with replacement of a byte list, as a `String`. -/
def decodeUtf8Repl (bytes : List Nat) : String :=
  ⟨utf8Loop bytes 0 0 0x80 0xBF⟩

/-- `readString` (decoder.js): varint octet count, then that many UTF-8
octets clamped to what remains.  A declared count of zero, above
100000, or negative (a wrapped varint) yields the empty string with the
cursor just past the varint. -/
def readString (data : List Nat) (pos : Nat) : String × Nat :=
  let r := read7BitEncodedInt data pos
  let length := r.1
  let pos1 := r.2
  if length = 0 ∨ 100000 < length then ("", pos1)
  else
    let avail := min length.toNat (data.length - pos1)
    if avail = 0 then ("", pos1)
    else (decodeUtf8Repl ((data.drop pos1).take avail), pos1 + avail)

/-- The result of `parseXmlSchema`: table name, columns (name, type) and
the diffgram flag.  (The always-empty `tables` field is dropped.) -/
structure SchemaResult where
  tableName : Option String
  columns : List (String × String)
  hasDiffgram : Bool
deriving Repr, DecidableEq

/-- The structured extract `extractBinaryObjectContent` builds for a
tag-0x29/0x2A blob. -/
structure BinContent where
  objectType : Option String
  schema : Option SchemaResult
  hasDiffgram : Bool
  extractedStrings : List String
deriving Repr, DecidableEq

/-- The decoded value tree.  Mirrors the JS values `parseObject`
produces.  JS has one number type; `vint` covers the integer-valued
results (byte, Int16, varint) and `vfloat64`/`vfloat32` carry the raw
little-endian octets of IEEE payloads (8 resp. 4 octets; a short read
returns the number 0 and is modelled as `vint 0`).  `vdate`, `vcolor`
and `vunit` are JS strings whose rendering involves float/date
formatting; they carry the underlying data instead. -/
inductive Value where
  | vnull
  | vbool (b : Bool)
  | vint (n : Int)
  | vstr (s : String)
  | vfloat64 (bytes : List Nat)
  | vfloat32 (bytes : List Nat)
  | vdate (bytes : List Nat)
  | vcolor (argb : Int)
  | vunit (dbl : List Nat) (unitType : Int)
  | vpair (first second : Value)
  | vtriplet (first second third : Value)
  | vlist (items : List Value)
  | vobj (entries : List (String × Value))
  | vtypeRef (name : String)
  | vknownType (index : Int)
  | vtypedArray (typeIndex : Int) (items : List Value)
  | vbinaryObject (size : Int)
  | vbinarySerialized (size : Int) (content : BinContent)
  | vunknown (marker : Nat) (position : Nat)

/-- Outcome of a structured-parse step.  `ok` carries the value, the new
cursor and the decoder state.  `crash` models a JS exception escaping
the structured parser (it carries the intern tables at the moment of the
throw, which the fallback's re-parse inherits).  `nofuel` is the
embedding's recursion budget running out (unreachable for a budget above
the buffer length, since every nested parse strictly advances the
cursor).  `unmodeled` marks the embedding's boundary: stringification of
a float-carrying value used as a hashtable key. -/
inductive POut (α : Type) where
  | ok (a : α)
  | crash (st : DecState)
  | nofuel
  | unmodeled

/-- Sequencing on `POut`: failures propagate. -/
def POut.bind {α β : Type} : POut α → (α → POut β) → POut β
  | .ok a, f => f a
  | .crash st, _ => .crash st
  | .nofuel, _ => .nofuel
  | .unmodeled, _ => .unmodeled

mutual

/-- JS `String(v)` on a decoded value (used for hashtable keys).
`none` on the variants whose JS rendering involves IEEE-754 or date
formatting.  Arrays join their elements with commas, `null` rendering
as the empty string; other objects render as `"[object Object]"`. -/
def jsToString : Value → Option String
  | .vnull => some "null"
  | .vbool b => some (if b then "true" else "false")
  | .vint n => some (toString n)
  | .vstr s => some s
  | .vfloat64 _ => none
  | .vfloat32 _ => none
  | .vdate _ => none
  | .vcolor _ => none
  | .vunit _ _ => none
  | .vlist items => (jsArrayElems items).map (String.intercalate ",")
  | .vpair _ _ => some "[object Object]"
  | .vtriplet _ _ _ => some "[object Object]"
  | .vobj _ => some "[object Object]"
  | .vtypeRef _ => some "[object Object]"
  | .vknownType _ => some "[object Object]"
  | .vtypedArray _ _ => some "[object Object]"
  | .vbinaryObject _ => some "[object Object]"
  | .vbinarySerialized _ _ => some "[object Object]"
  | .vunknown _ _ => some "[object Object]"

/-- Element strings for an array join: `null` elements render empty. -/
def jsArrayElems : List Value → Option (List String)
  | [] => some []
  | v :: rest =>
    match (match v with | .vnull => some "" | _ => jsToString v),
          jsArrayElems rest with
    | some s, some l => some (s :: l)
    | _, _ => none

end

/-- Is `s` a canonical array-index property name (`"0"`, or digits with
no leading zero, of value below `2 ^ 32 - 1`)?  Such keys enumerate
before all other own properties of a JS object, in ascending numeric
order. -/
def arrayIndexStr (s : String) : Option Nat :=
  let cs := s.toList
  if cs ≠ [] ∧ cs.all (fun c => '0' ≤ c ∧ c ≤ '9') ∧
      (cs.head? ≠ some '0' ∨ cs = ['0']) then
    let n := cs.foldl (fun a c => a * 10 + (c.toNat - 48)) 0
    if n < 2 ^ 32 - 1 then some n else none
  else none

/-- Insert a fresh array-index key into the (sorted) array-index prefix
of a JS object's entry list: before the first entry that is not an
array index or whose index is not smaller. -/
def insertIdxAux (n : Nat) (k : String) (v : Value) :
    List (String × Value) → List (String × Value)
  | [] => [(k, v)]
  | e :: rest =>
    match arrayIndexStr e.1 with
    | some m => if m < n then e :: insertIdxAux n k v rest else (k, v) :: e :: rest
    | none => (k, v) :: e :: rest

/-- JS `obj[k] = v` on a plain object, tracked in enumeration order:
an existing key is updated in place; a fresh array-index key joins the
ascending numeric prefix; any other fresh key appends at the end. -/
def jsObjInsert (entries : List (String × Value)) (k : String) (v : Value) :
    List (String × Value) :=
  if entries.any (fun e => e.1 = k) then
    entries.map (fun e => if e.1 = k then (k, v) else e)
  else
    match arrayIndexStr k with
    | none => entries ++ [(k, v)]
    | some n => insertIdxAux n k v entries

/-- `result[index] = value` guarded by `index < result.length`
(decoder.js, sparse arrays).  A negative index passes the JS guard but
only creates a non-index property invisible to the array's elements, so
it is a no-op on the element list. -/
def jsListSet (l : List Value) (i : Int) (v : Value) : List Value :=
  if 0 ≤ i ∧ i < (l.length : Int) then l.set i.toNat v else l

/-- `this.stringTable[idx] || `<StringRef:${idx}>`` (decoder.js): an
out-of-range index — or an interned empty string, which is falsy —
yields the sentinel. -/
def stringRefLookup (tbl : List String) (idx : Int) : String :=
  match (if 0 ≤ idx then tbl.get? idx.toNat else none) with
  | some s => if s = "" then "<StringRef:" ++ toString idx ++ ">" else s
  | none => "<StringRef:" ++ toString idx ++ ">"

/-- `this.typeTable[index] || { type: 'KnownType', index }` (decoder.js). -/
def knownTypeLookup (tbl : List String) (idx : Int) : Value :=
  match (if 0 ≤ idx then tbl.get? idx.toNat else none) with
  | some s => if s = "" then .vknownType idx else .vstr s
  | none => .vknownType idx

/-- The JS regex class `\s`: ASCII whitespace plus the Unicode space
separators, BOM and line/paragraph separators. -/
def jsIsSpaceChar (c : Char) : Bool :=
  c = ' ' ∨ c = '\t' ∨ c = '\n' ∨ c.toNat = 0x0B ∨ c.toNat = 0x0C ∨ c = '\r' ∨
  c.toNat = 0xA0 ∨ c.toNat = 0x1680 ∨ (0x2000 ≤ c.toNat ∧ c.toNat ≤ 0x200A) ∨
  c.toNat = 0x2028 ∨ c.toNat = 0x2029 ∨ c.toNat = 0x202F ∨ c.toNat = 0x205F ∨
  c.toNat = 0x3000 ∨ c.toNat = 0xFEFF

/-- The recovery test `/^[\x20-\x7E\s]+$/` on a candidate string. -/
def printableOrSpace (s : String) : Bool :=
  s.toList.all fun c => (0x20 ≤ c.toNat ∧ c.toNat ≤ 0x7E) ∨ jsIsSpaceChar c

/-- `tryRecoverParse` (decoder.js): for a tag in 1..127, step the cursor
back onto the tag and attempt a length-prefixed string read; accept it
when non-empty and printable, otherwise produce an `Unknown` marker at
one before wherever the attempt left the cursor.  Tags outside 1..127
produce the `Unknown` marker immediately. -/
def tryRecoverParse (data : List Nat) (marker : Nat) (pos : Nat) (st : DecState) :
    POut (Value × Nat × DecState) :=
  if 0 < marker ∧ marker < 128 then
    let r := readString data (pos - 1)
    if r.1 ≠ "" ∧ printableOrSpace r.1 then .ok (.vstr r.1, r.2, st)
    else .ok (.vunknown marker (r.2 - 1), r.2, st)
  else .ok (.vunknown marker (pos - 1), pos, st)

/-! ## Content extraction (`extractAllContent` and friends)

The fallback extractor works on the `binaryString` whose characters are
exactly the decoded octets, so it is modelled on the octet list
directly; `byteStr`/`strBytes` convert at the boundaries. -/

/-- The chars of a JS binary string, one per octet. -/
def byteStr (l : List Nat) : String :=
  ⟨l.map Char.ofNat⟩

/-- ASCII octets of a Lean string literal (used for search patterns). -/
def strBytes (s : String) : List Nat :=
  s.toList.map Char.toNat

/-- `String.prototype.indexOf(pat, start)`: the first position at or
after `start` where `pat` occurs in `s` (patterns here are non-empty). -/
def findSub (pat s : List Nat) (start : Nat) : Option Nat :=
  (List.range (s.length + 1)).find? fun i =>
    decide (start ≤ i) && pat.isPrefixOf (s.drop i)

/-- One candidate match of the regex `element name="([^"]+)"` at
position `i`: the literal prefix, then a non-empty run of non-quote
octets closed by a quote.  Returns the captured run. -/
def nameCapture (s : List Nat) (i : Nat) : Option (List Nat) :=
  if (strBytes "element name=\"").isPrefixOf (s.drop i) then
    let after := s.drop (i + 14)
    let run := after.takeWhile (fun b => b ≠ 34)
    if run ≠ [] ∧ run.length < after.length then some run else none
  else none

/-- Leftmost match of `element name="([^"]+)"` from position `i`
(budgeted scan; the budget `s.length + 2` covers every position). -/
def findSchemaNameAux (s : List Nat) : Nat → Nat → Option (List Nat)
  | 0, _ => none
  | Nat.succ k, i =>
    if s.length ≤ i then none
    else match nameCapture s i with
      | some run => some run
      | none => findSchemaNameAux s k (i + 1)

/-- The table-name capture of `parseXmlSchema`. -/
def findSchemaName (s : List Nat) : Option (List Nat) :=
  findSchemaNameAux s (s.length + 2) 0

/-- The global exec loop over `element name="([^"]+)"[^>]*(?:type="([^"]+)")?`:
each match captures a name and then greedily consumes the `[^>]*` run,
after which the optional `type` group always matches empty (the greedy
run has already passed any `type="`), so every column gets the default
type.  `lastIndex` resumes after the consumed run. -/
def columnsAux (s : List Nat) : Nat → Nat → List (List Nat)
  | 0, _ => []
  | Nat.succ k, i =>
    if s.length ≤ i then []
    else match nameCapture s i with
      | some run =>
        let afterQuote := i + 14 + run.length + 1
        let tailRun := (s.drop afterQuote).takeWhile (fun b => b ≠ 62)
        run :: columnsAux s k (afterQuote + tailRun.length)
      | none => columnsAux s k (i + 1)

/-- `parseXmlSchema` (decoder.js): table name, column list (dropping the
table name itself and any `DataSet` column), and the diffgram flag. -/
def parseXmlSchema (xml : List Nat) : SchemaResult :=
  let tn := findSchemaName xml
  let rawCols := columnsAux xml (xml.length + 2) 0
  let cols := rawCols.filter fun run =>
    decide (some run ≠ tn) && decide (findSub (strBytes "DataSet") run 0 = none)
  { tableName := tn.map byteStr
    columns := cols.map fun run => (byteStr run, "string")
    hasDiffgram := findSub (strBytes "<diffgr:diffgram") xml 0 ≠ none }

/-- `/^(AA|==)+$/`: the octets split into `AA` / `==` blocks. -/
def aaEqRun : List Nat → Bool
  | [] => true
  | 65 :: 65 :: rest => aaEqRun rest
  | 61 :: 61 :: rest => aaEqRun rest
  | _ => false

/-- `isNoiseString` (decoder.js): the six noise filters. -/
def isNoiseString (cs : List Nat) : Bool :=
  (cs ≠ [] ∧ cs.all fun b => 48 ≤ b ∧ b ≤ 57) ∨
  (cs ≠ [] ∧ cs.all fun b =>
    (48 ≤ b ∧ b ≤ 57) ∨ (65 ≤ b ∧ b ≤ 70) ∨ (97 ≤ b ∧ b ≤ 102)) ∨
  (cs ≠ [] ∧ aaEqRun cs) ∨
  (cs ≠ [] ∧ cs.all fun b => b = 43 ∨ b = 47 ∨ b = 61) ∨
  ((strBytes "ctl").isPrefixOf cs ∧ cs.drop 3 ≠ [] ∧
    (cs.drop 3).all fun b => 48 ≤ b ∧ b ≤ 57) ∨
  ((strBytes "ImageButton").isPrefixOf cs ∧ cs.drop 11 ≠ [] ∧
    (cs.drop 11).all fun b => 48 ≤ b ∧ b ≤ 57)

/-- The scan of `extractReadableStrings` (decoder.js): accumulate runs
of printable ASCII; a run that ends mid-buffer is kept when it has at
least 4 octets, does not start with `<?xml`, does not contain `<xs:`
and is not noise; the final run skips the two XML checks. -/
def extractStringsAux : List Nat → List Nat → List (List Nat)
  | [], current =>
    if 4 ≤ current.length ∧ ¬ isNoiseString current then [current] else []
  | b :: rest, current =>
    if 32 ≤ b ∧ b ≤ 126 then extractStringsAux rest (current ++ [b])
    else
      (if 4 ≤ current.length ∧ ¬ (strBytes "<?xml").isPrefixOf current ∧
          findSub (strBytes "<xs:") current 0 = none ∧ ¬ isNoiseString current
       then [current] else []) ++ extractStringsAux rest []

/-- First-occurrence-preserving deduplication (`[...new Set(xs)]`). -/
def dedupKeep (l : List String) : List String :=
  l.foldl (fun acc x => if x ∈ acc then acc else acc ++ [x]) []

/-- `extractReadableStrings` (decoder.js): printable runs, deduplicated,
capped at 200. -/
def extractReadableStrings (s : List Nat) : List String :=
  (dedupKeep ((extractStringsAux s []).map byteStr)).take 200

/-- `extractBinaryObjectContent` (decoder.js): DataTable detection, the
embedded XML schema slice (JS `substring` swaps its endpoints when
reversed), the diffgram flag, and up to 50 readable strings. -/
def extractBinaryObjectContent (bytes : List Nat) : BinContent :=
  let hasDT := findSub (strBytes "System.Data.DataTable") bytes 0 ≠ none
  let schemaStart := findSub (strBytes "<?xml") bytes 0
  let schemaEnd := findSub (strBytes "</xs:schema>") bytes 0
  let schema :=
    if hasDT then
      match schemaStart, schemaEnd with
      | some a, some b =>
        let lo := min a (b + 12)
        let hi := max a (b + 12)
        some (parseXmlSchema ((bytes.drop lo).take (hi - lo)))
      | _, _ => none
    else none
  let diff := hasDT ∧ findSub (strBytes "<diffgr:diffgram") bytes 0 ≠ none ∧
      findSub (strBytes "</diffgr:diffgram>") bytes 0 ≠ none
  { objectType := if hasDT then some "DataTable" else none
    schema := schema
    hasDiffgram := diff
    extractedStrings :=
      ((extractReadableStrings bytes).filter fun s => 3 < s.length).take 50 }

/-! ## The structured parser (`parseObject` and the composite parsers)

The composite parsers take the element parser as a `Step` argument;
`parseObject` passes itself at one unit less recursion budget, making
the recursion structural on the budget. -/

/-- An element-parse step: cursor and state in, outcome out. -/
def Step : Type :=
  Nat → DecState → POut (Value × Nat × DecState)

/-- `parseInt16` (decoder.js): two octets, low first, `(b2 << 8) | b1`. -/
def parseInt16 (data : List Nat) (pos : Nat) (st : DecState) :
    POut (Value × Nat × DecState) :=
  let r1 := readByteF data pos
  let r2 := readByteF data r1.2
  .ok (.vint (r2.1 * 256 + r1.1), r2.2, st)

/-- `parseDateTime` (decoder.js): 8 ticks octets; a short read yields
the placeholder string.  (A full read renders via BigInt/Date; the
octets are carried instead.) -/
def parseDateTime (data : List Nat) (pos : Nat) (st : DecState) :
    POut (Value × Nat × DecState) :=
  let r := readBytesN data pos 8
  if r.1.length < 8 then .ok (.vstr "<DateTime>", r.2, st)
  else .ok (.vdate r.1, r.2, st)

/-- `parseDouble` (decoder.js): 8 LE IEEE-754 octets; a short read
yields the number 0. -/
def parseDouble (data : List Nat) (pos : Nat) (st : DecState) :
    POut (Value × Nat × DecState) :=
  let r := readBytesN data pos 8
  if r.1.length < 8 then .ok (.vint 0, r.2, st)
  else .ok (.vfloat64 r.1, r.2, st)

/-- `parseFloat` (decoder.js): 4 LE IEEE-754 octets; a short read
yields the number 0. -/
def parseFloat (data : List Nat) (pos : Nat) (st : DecState) :
    POut (Value × Nat × DecState) :=
  let r := readBytesN data pos 4
  if r.1.length < 4 then .ok (.vint 0, r.2, st)
  else .ok (.vfloat32 r.1, r.2, st)

/-- `parseColor` (decoder.js): packed ARGB varint (the `rgba(...)`
string rendering is a pure function of it). -/
def parseColor (data : List Nat) (pos : Nat) (st : DecState) :
    POut (Value × Nat × DecState) :=
  let r := read7BitEncodedInt data pos
  .ok (.vcolor r.1, r.2, st)

/-- `parseUnit` (decoder.js): a Double read (8 octets, short read = 0)
then the varint unit kind; rendered in JS as a template string. -/
def parseUnit (data : List Nat) (pos : Nat) (st : DecState) :
    POut (Value × Nat × DecState) :=
  let r := readBytesN data pos 8
  let ru := read7BitEncodedInt data r.2
  .ok (.vunit r.1 ru.1, ru.2, st)

/-- `parseType` (decoder.js): length-prefixed name, appended to the
type intern table. -/
def parseType (data : List Nat) (pos : Nat) (st : DecState) :
    POut (Value × Nat × DecState) :=
  let r := readString data pos
  .ok (.vtypeRef r.1, r.2, { st with typeTable := st.typeTable ++ [r.1] })

/-- `parseKnownType` (decoder.js): varint index into the type table. -/
def parseKnownType (data : List Nat) (pos : Nat) (st : DecState) :
    POut (Value × Nat × DecState) :=
  let r := read7BitEncodedInt data pos
  .ok (knownTypeLookup st.typeTable r.1, r.2, st)

/-- `parseBinaryObject` (decoder.js): varint length; an over-long or
negative length yields a size-only marker, otherwise the octets are
consumed and content-extracted. -/
def parseBinaryObject (data : List Nat) (pos : Nat) (st : DecState) :
    POut (Value × Nat × DecState) :=
  let r := read7BitEncodedInt data pos
  if ((data.length : Int) - (r.2 : Int)) < r.1 ∨ r.1 < 0 then
    .ok (.vbinaryObject r.1, r.2, st)
  else
    let rb := readBytesN data r.2 r.1.toNat
    .ok (.vbinarySerialized r.1 (extractBinaryObjectContent rb.1), rb.2, st)

/-- The element loop shared by `parseArray`, `parseArrayList` and
`parseTypedArray` (decoder.js): up to `n` more iterations, stopping
early at end-of-buffer. -/
def parseArrayLoop (step : Step) (dataLen : Nat) :
    Nat → Nat → DecState → List Value → POut (List Value × Nat × DecState)
  | 0, pos, st, acc => .ok (acc, pos, st)
  | Nat.succ n, pos, st, acc =>
    if dataLen ≤ pos then .ok (acc, pos, st)
    else (step pos st).bind fun r =>
      parseArrayLoop step dataLen n r.2.1 r.2.2 (acc ++ [r.1])

/-- `parseArray` (decoder.js, tags 0x14/0x15): varint count; above
10000 yields an empty list at the cursor just past the count. -/
def parseArray (step : Step) (data : List Nat) (pos : Nat) (st : DecState) :
    POut (Value × Nat × DecState) :=
  let r := read7BitEncodedInt data pos
  if 10000 < r.1 then .ok (.vlist [], r.2, st)
  else (parseArrayLoop step data.length r.1.toNat r.2 st []).bind fun l =>
    .ok (.vlist l.1, l.2.1, l.2.2)

/-- `parseArrayList` (decoder.js, tag 0x16): same shape as
`parseArray`. -/
def parseArrayList (step : Step) (data : List Nat) (pos : Nat) (st : DecState) :
    POut (Value × Nat × DecState) :=
  let r := read7BitEncodedInt data pos
  if 10000 < r.1 then .ok (.vlist [], r.2, st)
  else (parseArrayLoop step data.length r.1.toNat r.2 st []).bind fun l =>
    .ok (.vlist l.1, l.2.1, l.2.2)

/-- The entry loop of `parseHashtable` (decoder.js): key and value
parses, then `result[String(key)] = value`.  A key whose JS
stringification the embedding does not model flags the parse. -/
def parseHashtableLoop (step : Step) (dataLen : Nat) :
    Nat → Nat → DecState → List (String × Value) →
      POut (List (String × Value) × Nat × DecState)
  | 0, pos, st, acc => .ok (acc, pos, st)
  | Nat.succ n, pos, st, acc =>
    if dataLen ≤ pos then .ok (acc, pos, st)
    else (step pos st).bind fun rk =>
      (step rk.2.1 rk.2.2).bind fun rv =>
        match jsToString rk.1 with
        | some ks => parseHashtableLoop step dataLen n rv.2.1 rv.2.2
            (jsObjInsert acc ks rv.1)
        | none => .unmodeled

/-- `parseHashtable` (decoder.js, tags 0x17/0x18): varint count; above
10000 yields an empty object at the cursor just past the count. -/
def parseHashtable (step : Step) (data : List Nat) (pos : Nat) (st : DecState) :
    POut (Value × Nat × DecState) :=
  let r := read7BitEncodedInt data pos
  if 10000 < r.1 then .ok (.vobj [], r.2, st)
  else (parseHashtableLoop step data.length r.1.toNat r.2 st []).bind fun l =>
    .ok (.vobj l.1, l.2.1, l.2.2)

/-- The entry loop of `parseSparseArray` (decoder.js): varint index,
element parse, guarded in-place set. -/
def parseSparseLoop (step : Step) (data : List Nat) :
    Nat → Nat → DecState → List Value → POut (List Value × Nat × DecState)
  | 0, pos, st, arr => .ok (arr, pos, st)
  | Nat.succ n, pos, st, arr =>
    if data.length ≤ pos then .ok (arr, pos, st)
    else
      let ri := read7BitEncodedInt data pos
      (step ri.2 st).bind fun rv =>
        parseSparseLoop step data n rv.2.1 rv.2.2 (jsListSet arr ri.1 rv.1)

/-- `parseSparseArray` (decoder.js, tag 0x28): declared length and
entry count; length above 10000 yields an empty list; a negative
length reaches `new Array(negative)`, which throws a `RangeError`
(modelled as `crash`); otherwise a null-filled dense list of
`min(length, 1000)` elements receives the entries. -/
def parseSparseArray (step : Step) (data : List Nat) (pos : Nat) (st : DecState) :
    POut (Value × Nat × DecState) :=
  let r1 := read7BitEncodedInt data pos
  let r2 := read7BitEncodedInt data r1.2
  if 10000 < r1.1 then .ok (.vlist [], r2.2, st)
  else if r1.1 < 0 then .crash st
  else (parseSparseLoop step data r2.1.toNat r2.2 st
      (List.replicate (min r1.1.toNat 1000) .vnull)).bind fun l =>
    .ok (.vlist l.1, l.2.1, l.2.2)

/-- `parseTypedArray` (decoder.js, tag 0x32): varint type index and
declared length; parses up to `min(length, 1000)` elements — there is
no 10000 clamp on this tag. -/
def parseTypedArray (step : Step) (data : List Nat) (pos : Nat) (st : DecState) :
    POut (Value × Nat × DecState) :=
  let rt := read7BitEncodedInt data pos
  let rl := read7BitEncodedInt data rt.2
  (parseArrayLoop step data.length (min rl.1 1000).toNat rl.2 st []).bind fun l =>
    .ok (.vtypedArray rt.1 l.1, l.2.1, l.2.2)

/-- `parseObject` (decoder.js): the tag dispatch.  At or past
end-of-buffer it returns `null` without consuming; otherwise it reads
the tag octet and dispatches.  The first argument is the recursion
budget (strictly above the buffer length is always enough, as every
nested parse starts strictly past this one's tag). -/
def parseObject (data : List Nat) : Nat → Nat → DecState → POut (Value × Nat × DecState)
  | 0, _, _ => .nofuel
  | Nat.succ fuel, pos, st =>
    if data.length ≤ pos then .ok (.vnull, pos, st)
    else
      let tag := data.getD pos 0
      let p := pos + 1
      match tag with
      | 0x01 => parseInt16 data p st
      | 0x02 =>
        let r := read7BitEncodedInt data p
        .ok (.vint r.1, r.2, st)
      | 0x03 =>
        let r := readByteF data p
        .ok (.vint r.1, r.2, st)
      | 0x04 =>
        let r := readByteF data p
        .ok (.vstr (String.singleton (Char.ofNat r.1)), r.2, st)
      | 0x05 =>
        let r := readString data p
        .ok (.vstr r.1, r.2, st)
      | 0x06 => parseDateTime data p st
      | 0x07 => parseDouble data p st
      | 0x08 => parseFloat data p st
      | 0x09 => parseColor data p st
      | 0x0A => .ok (.vnull, p, st)
      | 0x0B => .ok (.vbool true, p, st)
      | 0x0C => .ok (.vbool false, p, st)
      | 0x0F =>
        (parseObject data fuel p st).bind fun r1 =>
          (parseObject data fuel r1.2.1 r1.2.2).bind fun r2 =>
            .ok (.vpair r1.1 r2.1, r2.2.1, r2.2.2)
      | 0x10 =>
        (parseObject data fuel p st).bind fun r1 =>
          (parseObject data fuel r1.2.1 r1.2.2).bind fun r2 =>
            (parseObject data fuel r2.2.1 r2.2.2).bind fun r3 =>
              .ok (.vtriplet r1.1 r2.1 r3.1, r3.2.1, r3.2.2)
      | 0x14 => parseArray (fun q s => parseObject data fuel q s) data p st
      | 0x15 => parseArray (fun q s => parseObject data fuel q s) data p st
      | 0x16 => parseArrayList (fun q s => parseObject data fuel q s) data p st
      | 0x17 => parseHashtable (fun q s => parseObject data fuel q s) data p st
      | 0x18 => parseHashtable (fun q s => parseObject data fuel q s) data p st
      | 0x19 => parseType data p st
      | 0x1B => parseUnit data p st
      | 0x1E =>
        let r := readString data p
        .ok (.vstr r.1, r.2, { st with stringTable := st.stringTable ++ [r.1] })
      | 0x1F =>
        let r := read7BitEncodedInt data p
        .ok (.vstr (stringRefLookup st.stringTable r.1), r.2, st)
      | 0x28 => parseSparseArray (fun q s => parseObject data fuel q s) data p st
      | 0x29 => parseBinaryObject data p st
      | 0x2A => parseBinaryObject data p st
      | 0x32 => parseTypedArray (fun q s => parseObject data fuel q s) data p st
      | 0x3C => parseKnownType data p st
      | 0x64 => .ok (.vnull, p, st)
      | 0x65 => .ok (.vstr "", p, st)
      | 0x66 => .ok (.vint 0, p, st)
      | 0x67 => .ok (.vbool true, p, st)
      | 0x68 => .ok (.vbool false, p, st)
      | _ => tryRecoverParse data tag p st

/-- `parseViewState` (decoder.js): an empty buffer throws; an 0xFF
marker discards the version octet; otherwise the parse restarts at
offset 0. -/
def parseViewState (data : List Nat) (fuel : Nat) (st : DecState) :
    POut (Value × Nat × DecState) :=
  if data.length = 0 then .crash st
  else
    let r := readByteF data 0
    if r.1 = 0xFF then
      let r2 := readByteF data r.2
      parseObject data fuel r2.2 st
    else parseObject data fuel 0 st

/-! ## Top-level decode (`decode` / `fallbackDecode`) -/

/-- Is an 8-octet LE IEEE-754 double falsy in JS (`±0` or `NaN`, or the
number 0 from a short read)? -/
def doubleFalsy (b : List Nat) : Bool :=
  b.length < 8 ∨
  (b.take 7 = [0, 0, 0, 0, 0, 0, 0] ∧ (b.getD 7 0 = 0 ∨ b.getD 7 0 = 0x80)) ∨
  (b.getD 7 0 % 128 = 0x7F ∧ 0xF0 ≤ b.getD 6 0 ∧
    (b.getD 6 0 % 16 ≠ 0 ∨ (b.take 6).any (· ≠ 0)))

/-- Is a 4-octet LE IEEE-754 float falsy in JS? -/
def floatFalsy (b : List Nat) : Bool :=
  b.length < 4 ∨
  (b.take 3 = [0, 0, 0] ∧ (b.getD 3 0 = 0 ∨ b.getD 3 0 = 0x80)) ∨
  (b.getD 3 0 % 128 = 0x7F ∧ 0x80 ≤ b.getD 2 0 ∧
    (b.getD 2 0 % 128 ≠ 0 ∨ b.getD 0 0 ≠ 0 ∨ b.getD 1 0 ≠ 0))

/-- JS truthiness of a decoded value. -/
def jsTruthy : Value → Bool
  | .vnull => false
  | .vbool b => b
  | .vint n => n ≠ 0
  | .vstr s => s ≠ ""
  | .vfloat64 b => ¬ doubleFalsy b
  | .vfloat32 b => ¬ floatFalsy b
  | _ => true

/-- Is `Object.keys(v).length > 0` for a decoded value?  Strings expose
their character indices (the date/color/unit renderings are never
empty), wrapped primitives expose nothing, objects and arrays expose
their own enumerable properties. -/
def jsHasKeys : Value → Bool
  | .vnull => false
  | .vbool _ => false
  | .vint _ => false
  | .vfloat64 _ => false
  | .vfloat32 _ => false
  | .vstr s => s ≠ ""
  | .vlist items => ¬ items.isEmpty
  | .vobj entries => ¬ entries.isEmpty
  | _ => true

/-- One block of `extractXmlContent`'s scan: the block's slice (bounded
at `start + 5000` when the closing tag is missing) and the position the
scan resumes from. -/
def extractXmlStep (s : List Nat) (foundStart : Nat) (endTag : List Nat) :
    List Nat × Nat :=
  let endIndex := match findSub endTag s foundStart with
    | none => min (foundStart + 5000) s.length
    | some e => e + endTag.length
  ((s.drop foundStart).take (endIndex - foundStart), endIndex)

/-- The scan loop of `extractXmlContent` (decoder.js): find the next
`<?xml` / `<xs:schema` / `<diffgr:` start (whichever comes first),
slice to the matching end tag, and keep slices longer than 20 octets
as parsed schemas. -/
def extractXmlLoop (s : List Nat) : Nat → Nat → List SchemaResult
  | 0, _ => []
  | Nat.succ k, start =>
    let xmlStart := findSub (strBytes "<?xml") s start
    let schemaStart := findSub (strBytes "<xs:schema") s start
    let diffStart := findSub (strBytes "<diffgr:") s start
    let cond1 := xmlStart.isSome ∧
      (schemaStart.isNone ∨ xmlStart.getD 0 < schemaStart.getD 0) ∧
      (diffStart.isNone ∨ xmlStart.getD 0 < diffStart.getD 0)
    let cond2 := schemaStart.isSome ∧
      (diffStart.isNone ∨ schemaStart.getD 0 < diffStart.getD 0)
    let found : Option (Nat × List Nat) :=
      if cond1 then some (xmlStart.getD 0, strBytes "</xs:schema>")
      else if cond2 then some (schemaStart.getD 0, strBytes "</xs:schema>")
      else diffStart.map fun d => (d, strBytes "</diffgr:diffgram>")
    match found with
    | none => []
    | some (foundStart, endTag) =>
      let r := extractXmlStep s foundStart endTag
      (if 20 < r.1.length then [parseXmlSchema r.1] else []) ++
        extractXmlLoop s k r.2

/-- All /g occurrences of a fixed literal (`lastIndex` resumes after
each match). -/
def scanLiteral (pat s : List Nat) : Nat → Nat → List (List Nat)
  | 0, _ => []
  | Nat.succ k, start =>
    match findSub pat s start with
    | none => []
    | some i => pat :: scanLiteral pat s k (i + pat.length)

/-- Is an octet in the regex class `[A-Za-z.]`? -/
def isAlphaDot (b : Nat) : Bool :=
  (65 ≤ b ∧ b ≤ 90) ∨ (97 ≤ b ∧ b ≤ 122) ∨ b = 46

/-- All /g matches of `System\.[A-Za-z.]+`: the literal `System.`
followed by a maximal non-empty `[A-Za-z.]` run. -/
def scanSystemDot (s : List Nat) : Nat → Nat → List (List Nat)
  | 0, _ => []
  | Nat.succ k, start =>
    match findSub (strBytes "System.") s start with
    | none => []
    | some i =>
      let run := (s.drop (i + 7)).takeWhile isAlphaDot
      if run = [] then scanSystemDot s k (i + 1)
      else (strBytes "System." ++ run) :: scanSystemDot s k (i + 7 + run.length)

/-- `extractTypeInfo` (decoder.js): the four type patterns in order,
deduplicated in insertion order. -/
def extractTypeInfo (s : List Nat) : List String :=
  let b := s.length + 2
  dedupKeep (List.map byteStr
    (scanLiteral (strBytes "System.Data.DataTable") s b 0 ++
     scanLiteral (strBytes "System.Data.DataSet") s b 0 ++
     scanLiteral (strBytes "System.Version") s b 0 ++
     scanSystemDot s b 0))

/-- The fallback extractor's result: the `content` object of
`extractAllContent` (an empty list or `none` models an absent key). -/
structure ExtractResult where
  xmlSchemas : List SchemaResult
  dotNetTypes : List String
  strings : List String
  structureVal : Option Value

/-- `extractAllContent` (decoder.js): XML schemas, .NET type names,
readable strings, and a structured re-parse from offset 0 (inheriting
the intern tables the crashed parse left behind; its own throw is
swallowed).  The re-parse's result is kept when truthy with at least
one own key. -/
def extractAllContent (bytes : List Nat) (st : DecState) : ExtractResult :=
  { xmlSchemas := extractXmlLoop bytes (bytes.length + 2) 0
    dotNetTypes := extractTypeInfo bytes
    strings := extractReadableStrings bytes
    structureVal :=
      match parseViewState bytes (bytes.length + 1) st with
      | .ok (v, _, _) => if jsTruthy v ∧ jsHasKeys v then some v else none
      | _ => none }

/-- One sextet of the standard Base64 alphabet, or `none`. -/
def b64Val (c : Char) : Option Nat :=
  if 'A' ≤ c ∧ c ≤ 'Z' then some (c.toNat - 65)
  else if 'a' ≤ c ∧ c ≤ 'z' then some (c.toNat - 97 + 26)
  else if '0' ≤ c ∧ c ≤ '9' then some (c.toNat - 48 + 52)
  else if c = '+' then some 62
  else if c = '/' then some 63
  else none

/-- ASCII whitespace, stripped by forgiving-base64. -/
def isB64Ws (c : Char) : Bool :=
  c = ' ' ∨ c = '\t' ∨ c = '\n' ∨ c.toNat = 12 ∨ c = '\r'

/-- Reassemble sextets into octets; a trailing group of 2 or 3 sextets
contributes 1 or 2 octets (low bits discarded), a lone trailing sextet
is malformed. -/
def b64Chunks : List Nat → Option (List Nat)
  | [] => some []
  | [_] => none
  | [a, b] => some [a * 4 + b / 16]
  | [a, b, c] => some [a * 4 + b / 16, b % 16 * 16 + c / 4]
  | a :: b :: c :: d :: rest =>
    (b64Chunks rest).map fun t =>
      (a * 4 + b / 16) :: (b % 16 * 16 + c / 4) :: (c % 4 * 64 + d) :: t

/-- Strip one or two trailing `=` characters. -/
def stripPad (l : List Char) : List Char :=
  match l.reverse with
  | '=' :: '=' :: rest => rest.reverse
  | '=' :: rest => rest.reverse
  | _ => l

/-- Browser `atob` (WHATWG forgiving-base64): strip ASCII whitespace,
allow canonical `=` padding, reject a length ≡ 1 (mod 4) and any octet
outside the alphabet. -/
def jsAtob (s : String) : Option (List Nat) :=
  let cs := s.toList.filter fun c => ¬ isB64Ws c
  let cs1 := if cs.length % 4 = 0 then stripPad cs else cs
  if cs1.length % 4 = 1 then none
  else (cs1.mapM b64Val).bind b64Chunks

/-- The standard Base64 alphabet. -/
def b64Char (n : Nat) : Char :=
  ("ABCDEFGHIJKLMNOPQRSTUVWXYZabcdefghijklmnopqrstuvwxyz0123456789+/".toList).getD n 'A'

/-- `btoa`'s 3-octets-to-4-chars grouping with `=` padding. -/
def btoaChunks : List Nat → List Char
  | [] => []
  | [a] => [b64Char (a / 4), b64Char (a % 4 * 16), '=', '=']
  | [a, b] => [b64Char (a / 4), b64Char (a % 4 * 16 + b / 16), b64Char (b % 16 * 4), '=']
  | a :: b :: c :: rest =>
    b64Char (a / 4) :: b64Char (a % 4 * 16 + b / 16) ::
      b64Char (b % 16 * 4 + c / 64) :: b64Char (c % 64) :: btoaChunks rest

/-- Browser `btoa` on a binary string given as octets. -/
def jsBtoa (bytes : List Nat) : String :=
  ⟨btoaChunks bytes⟩

/-- The outcome of `decode` (decoder.js).  `success` is the structured
path (`{success: true, data, stats, rawSize}`); `successNote` the
fallback path with its `note` field; `failure` the
`{success: false, error, suggestion}` result.  `outOfFuel`/`unmodeled`
are embedding artifacts (see `POut`). -/
inductive DecodeResult where
  | success (v : Value)
  | successNote (e : ExtractResult)
  | failure
  | outOfFuel
  | unmodeled

/-- `decode` (decoder.js) from the cleaned input onward (the trim /
URL-decode pre-step only rewrites the text handed to `atob`): Base64
failure is re-thrown by the fallback's own `atob` and surfaces as
`failure`; a structured-parse throw lands in `fallbackDecode`, whose
`atob` of the same string succeeds again and which then always returns
the extraction with a note. -/
def decodeCore (cleaned : String) : DecodeResult :=
  match jsAtob cleaned with
  | none => .failure
  | some bytes =>
    match parseViewState bytes (bytes.length + 1) ⟨[], []⟩ with
    | .ok (v, _, _) => .success v
    | .crash st => .successNote (extractAllContent bytes st)
    | .nofuel => .outOfFuel
    | .unmodeled => .unmodeled

/-! ## The encoder (`ViewStateEditor.serializeObject` and friends)

The encoder's input is the JSON tree the editor parsed, modelled as
`JVal`.  JSON numbers in the claims' domain are integers, so the
non-integer branch (`serializeDouble`, an IEEE-754 emission) lies
outside the embedded domain and `JVal` carries integers only. -/

/-- A JSON value handed to the editor's encoder. -/
inductive JVal where
  | jnull
  | jbool (b : Bool)
  | jint (n : Int)
  | jstr (s : String)
  | jarr (items : List JVal)
  | jobj (entries : List (String × JVal))

/-- UTF-8 octets of one character (`TextEncoder`). -/
def utf8EncodeChar (c : Char) : List Nat :=
  let n := c.toNat
  if n < 0x80 then [n]
  else if n < 0x800 then [0xC0 + n / 64, 0x80 + n % 64]
  else if n < 0x10000 then [0xE0 + n / 4096, 0x80 + n / 64 % 64, 0x80 + n % 64]
  else [0xF0 + n / 262144, 0x80 + n / 4096 % 64, 0x80 + n / 64 % 64, 0x80 + n % 64]

/-- UTF-8 octets of a string (`TextEncoder.encode`). -/
def utf8Bytes (s : String) : List Nat :=
  s.toList.flatMap utf8EncodeChar

/-- `serializeString` (editor): `0x05`, varint octet count, octets. -/
def serializeString (s : String) : List Nat :=
  let bs := utf8Bytes s
  0x05 :: (encode7BitInt bs.length ++ bs)

/-- `encode7BitInt` as applied to a possibly negative JS integer by
`serializeInt32`: a value below 128 (negatives included) is pushed as
one entry, which the `Uint8Array` construction wraps modulo 256. -/
def encode7BitIntI (value : Int) : List Nat :=
  if 128 ≤ value then encode7Aux 40 value.toNat else [(value % 256).toNat]

/-- JS property access on a parsed-JSON object. -/
def lookupKey (entries : List (String × JVal)) (k : String) : Option JVal :=
  (entries.find? fun e => e.1 = k).map Prod.snd

/-- The check `obj.type === '...'` (a strict string comparison). -/
def isTypeTag : Option JVal → String → Bool
  | some (.jstr t), s => t = s
  | _, _ => false

/-- `serializeObject` (editor) with an explicit recursion budget (one
unit per nesting level; `serializeObject` below instantiates it at a
provably sufficient size).  Mirrors the source dispatch: null/undefined
→ `0x64`; booleans → `0x66`/`0x67` (as written in the source); integers
in [0,255] → `0x03` + octet, other integers → `0x02` + varint; strings
→ `serializeString`; arrays → `0x6A` marker; `type: 'Pair'`/`'Triplet'`
objects → `0x68`/`0x69` + fields (a missing field serializes as null);
other objects → `0x17` hashtable with the `type` key filtered out. -/
def serializeObjectF : Nat → JVal → List Nat
  | 0, _ => []
  | Nat.succ k, v =>
    match v with
    | .jnull => [0x64]
    | .jbool b => [if b then 0x66 else 0x67]
    | .jint n =>
      if 0 ≤ n ∧ n ≤ 255 then [0x03, n.toNat]
      else 0x02 :: encode7BitIntI n
    | .jstr s => serializeString s
    | .jarr items =>
      0x6A :: (encode7BitInt items.length ++
        (items.map (serializeObjectF k)).flatten)
    | .jobj entries =>
      if isTypeTag (lookupKey entries "type") "Pair" then
        0x68 ::
          ((match lookupKey entries "first" with
            | some f => serializeObjectF k f
            | none => [0x64]) ++
           (match lookupKey entries "second" with
            | some snd => serializeObjectF k snd
            | none => [0x64]))
      else if isTypeTag (lookupKey entries "type") "Triplet" then
        0x69 ::
          ((match lookupKey entries "first" with
            | some f => serializeObjectF k f
            | none => [0x64]) ++
           (match lookupKey entries "second" with
            | some snd => serializeObjectF k snd
            | none => [0x64]) ++
           (match lookupKey entries "third" with
            | some t => serializeObjectF k t
            | none => [0x64]))
      else
        let keys := entries.filter fun e => e.1 ≠ "type"
        0x17 :: (encode7BitInt keys.length ++
          (keys.map fun e => serializeString e.1 ++ serializeObjectF k e.2).flatten)

/-- `serializeObject` (editor).  The budget mirrors the JS call stack:
100000 nesting levels is far beyond what the engine survives, and one
budget unit is spent per nesting level, so the budget-exhausted branch
is unreachable for any tree the source can process. -/
def serializeObject (v : JVal) : List Nat :=
  serializeObjectF 100000 v

/-- `encode` (editor): `0xFF 0x01` framing, then Base64. -/
def editorEncode (v : JVal) : String :=
  jsBtoa (0xFF :: 0x01 :: serializeObject v)

/-! ## Helper lemmas -/

theorem lor_mul_two_pow (k : Nat) :
    ∀ a c, a < 2 ^ k → Nat.lor a (c * 2 ^ k) = a + c * 2 ^ k := by
  induction k with
  | zero =>
    intro a c h
    have ha : a = 0 := by omega
    subst ha
    show (0 ||| c * 2 ^ 0) = 0 + c * 2 ^ 0
    simp
  | succ k ih =>
    intro a c h
    have h2 : (2 : Nat) ^ (k + 1) = 2 * 2 ^ k := by ring
    have h3 : c * 2 ^ (k + 1) = 2 * (c * 2 ^ k) := by ring
    have hd := Nat.bit_decomp a
    have hcb : Nat.bit false (c * 2 ^ k) = c * 2 ^ (k + 1) := by
      simp [Nat.bit]; omega
    have key := Nat.lor_bit a.bodd a.div2 false (c * 2 ^ k)
    rw [hcb, hd] at key
    cases hb : a.bodd with
    | false =>
      rw [hb] at key hd
      simp [Nat.bit] at hd key
      have hq : a.div2 < 2 ^ k := by omega
      show (a ||| c * 2 ^ (k + 1)) = a + c * 2 ^ (k + 1)
      rw [key]
      have ih2 : (a.div2 ||| c * 2 ^ k) = a.div2 + c * 2 ^ k := ih _ _ hq
      rw [ih2]
      omega
    | true =>
      rw [hb] at key hd
      simp [Nat.bit] at hd key
      have hq : a.div2 < 2 ^ k := by omega
      show (a ||| c * 2 ^ (k + 1)) = a + c * 2 ^ (k + 1)
      rw [key]
      have ih2 : (a.div2 ||| c * 2 ^ k) = a.div2 + c * 2 ^ k := ih _ _ hq
      rw [ih2]
      omega

theorem toInt32_small (v : Nat) (h : v < 2 ^ 31) : toInt32 v = (v : Int) := by
  have hv : v % 2 ^ 32 = v := Nat.mod_eq_of_lt (by omega)
  unfold toInt32
  rw [hv, if_pos h]

theorem encode7Aux_stable : ∀ f g n, n < 128 ^ f → f ≤ g →
    encode7Aux g n = encode7Aux f n := by
  intro f
  induction f with
  | zero =>
    intro g n hn _
    have : n = 0 := by simpa using hn
    subst this
    cases g with
    | zero => rfl
    | succ g => simp [encode7Aux]
  | succ f ih =>
    intro g n hn hg
    obtain ⟨g1, rfl⟩ : ∃ g1, g = g1 + 1 := ⟨g - 1, by omega⟩
    by_cases hc : 128 ≤ n
    · have hmask : n % 2 ^ 32 ≤ n := Nat.mod_le _ _
      have hlt : n % 2 ^ 32 / 128 < 128 ^ f := by
        have h1 : n < 128 ^ f * 128 := by
          have := hn
          rw [pow_succ] at this
          omega
        have : n % 2 ^ 32 / 128 ≤ n / 128 := Nat.div_le_div_right hmask
        have : n / 128 < 128 ^ f := by
          rw [Nat.div_lt_iff_lt_mul (by norm_num)]
          omega
        omega
      simp only [encode7Aux, if_pos hc]
      rw [ih g1 _ hlt (by omega)]
    · simp only [encode7Aux, if_neg hc]

theorem getD_append_cons (pre post : List Nat) (x : Nat) :
    (pre ++ x :: post).getD pre.length 0 = x := by
  rw [List.getD_eq_getElem?_getD]
  rw [List.getElem?_append_right (by omega)]
  simp

theorem read7Aux_encode : ∀ f (m bits shift k : Nat) (pre post : List Nat),
    m < 128 ^ f → bits < 2 ^ shift → bits + m * 2 ^ shift < 2 ^ 31 → shift < 35 → f < k →
    read7Aux (pre ++ encode7Aux f m ++ post) k pre.length bits shift
      = (((bits + m * 2 ^ shift : Nat) : Int), pre.length + (encode7Aux f m).length) := by
  intro f
  induction f with
  | zero =>
    intro m bits shift k pre post hm hb hv hs hk
    have hm0 : m = 0 := by simpa using hm
    subst hm0
    obtain ⟨k1, rfl⟩ : ∃ k1, k = k1 + 1 := ⟨k - 1, by omega⟩
    have henc : encode7Aux 0 0 = [0] := rfl
    rw [henc]
    have hguard : ¬ (35 ≤ shift ∨ (pre ++ [0] ++ post).length ≤ pre.length) := by
      push_neg
      constructor
      · omega
      · simp
    have hbyte : (pre ++ [0] ++ post).getD pre.length 0 = 0 := by
      rw [List.append_assoc]
      exact getD_append_cons pre ([] ++ post) 0
    have hz : Nat.lor bits 0 = bits := by
      show (bits ||| 0) = bits
      simp
    simp only [read7Aux, if_neg hguard, hbyte]
    norm_num
    rw [hz, toInt32_small bits (by omega)]
  | succ f ih =>
    intro m bits shift k pre post hm hb hv hs hk
    obtain ⟨k1, rfl⟩ : ∃ k1, k = k1 + 1 := ⟨k - 1, by omega⟩
    have hshift1 : (1 : Nat) ≤ 2 ^ shift := Nat.one_le_two_pow
    have hmlt : m < 2 ^ 31 := by
      have : m ≤ m * 2 ^ shift := Nat.le_mul_of_pos_right m (by omega)
      omega
    have hm32 : m % 2 ^ 32 = m := Nat.mod_eq_of_lt (by omega)
    by_cases hc : 128 ≤ m
    · -- continuation byte
      have henc : encode7Aux (f + 1) m = (m % 128 + 128) :: encode7Aux f (m / 128) := by
        simp only [encode7Aux, if_pos hc, hm32]
      rw [henc]
      have hguard : ¬ (35 ≤ shift ∨ (pre ++ ((m % 128 + 128) :: encode7Aux f (m / 128)) ++ post).length ≤ pre.length) := by
        push_neg
        refine ⟨by omega, ?_⟩
        simp only [List.length_append, List.length_cons]
        omega
      have hbyte : (pre ++ ((m % 128 + 128) :: encode7Aux f (m / 128)) ++ post).getD pre.length 0 = m % 128 + 128 := by
        rw [List.append_assoc]
        exact getD_append_cons pre _ _
      have hb128 : m % 128 + 128 < 256 := by omega
      have hmod : (m % 128 + 128) % 256 = m % 128 + 128 := Nat.mod_eq_of_lt hb128
      have hcont : 128 ≤ (m % 128 + 128) % 256 := by omega
      have hchunkmod : (m % 128 + 128) % 128 = m % 128 := by omega
      have hchunklt : m % 128 * 2 ^ shift < 2 ^ 32 := by
        have h1 : m % 128 * 2 ^ shift ≤ m * 2 ^ shift :=
          Nat.mul_le_mul_right _ (Nat.mod_le _ _)
        have : (2 : Nat) ^ 31 < 2 ^ 32 := by norm_num
        omega
      have hchunk32 : m % 128 * 2 ^ shift % 2 ^ 32 = m % 128 * 2 ^ shift :=
        Nat.mod_eq_of_lt hchunklt
      have hlor : Nat.lor bits (m % 128 * 2 ^ shift) = bits + m % 128 * 2  ^ shift :=
        lor_mul_two_pow shift bits (m % 128) hb
      have hcont2 : 128 ≤ m % 128 + 128 := by omega
      simp only [read7Aux, if_neg hguard, hbyte, hchunkmod, hchunk32, hlor, hmod,
        if_pos hcont2]
      -- now the recursive call
      have hstep : pre ++ ((m % 128 + 128) :: encode7Aux f (m / 128)) ++ post
          = (pre ++ [m % 128 + 128]) ++ encode7Aux f (m / 128) ++ post := by
        simp
      have hpow7 : (2 : Nat) ^ (shift + 7) = 2 ^ shift * 128 := by
        rw [pow_add]; norm_num
      have hshift7 : shift + 7 < 35 := by
        have h128 : (128 : Nat) * 2 ^ shift ≤ m * 2 ^ shift :=
          Nat.mul_le_mul_right _ hc
        have hlt31 : (2 : Nat) ^ (shift + 7) < 2 ^ 31 := by
          rw [pow_add]
          norm_num
          omega
        have := (Nat.pow_lt_pow_iff_right (a := 2) (by norm_num)).mp hlt31
        omega
      have hmdiv : m / 128 < 128 ^ f := by
        rw [Nat.div_lt_iff_lt_mul (by norm_num)]
        rw [pow_succ] at hm
        omega
      have hbits1 : bits + m % 128 * 2 ^ shift < 2 ^ (shift + 7) := by
        have h1 : m % 128 ≤ 127 := by omega
        have h2 : m % 128 * 2 ^ shift ≤ 127 * 2 ^ shift :=
          Nat.mul_le_mul_right _ h1
        rw [hpow7]
        omega
      have hval1 : (bits + m % 128 * 2 ^ shift) + (m / 128) * 2 ^ (shift + 7)
          = bits + m * 2 ^ shift := by
        have hsplit : 128 * (m / 128) + m % 128 = m := Nat.div_add_mod m 128
        rw [hpow7]
        calc bits + m % 128 * 2 ^ shift + m / 128 * (2 ^ shift * 128)
            = bits + (128 * (m / 128) + m % 128) * 2 ^ shift := by ring
          _ = bits + m * 2 ^ shift := by rw [hsplit]
      have hval2 : (bits + m % 128 * 2 ^ shift) + (m / 128) * 2 ^ (shift + 7) < 2 ^ 31 := by
        rw [hval1]; exact hv
      have hrec := ih (m / 128) (bits + m % 128 * 2 ^ shift) (shift + 7) k1
        (pre ++ [m % 128 + 128]) post hmdiv hbits1 hval2 hshift7 (by omega)
      rw [hstep]
      have hplen : (pre ++ [m % 128 + 128]).length = pre.length + 1 := by simp
      rw [hplen] at hrec
      rw [hrec]
      simp only [Prod.mk.injEq, List.length_cons]
      constructor
      · rw [hval1]
      · omega
    · -- final byte
      have henc : encode7Aux (f + 1) m = [m] := by
        simp only [encode7Aux, if_neg hc]
      rw [henc]
      have hguard : ¬ (35 ≤ shift ∨ (pre ++ [m] ++ post).length ≤ pre.length) := by
        push_neg
        constructor
        · omega
        · simp
      have hbyte : (pre ++ [m] ++ post).getD pre.length 0 = m := by
        rw [List.append_assoc]
        exact getD_append_cons pre _ _
      have hmod : m % 256 = m := Nat.mod_eq_of_lt (by omega)
      have hncont : ¬ 128 ≤ m % 256 := by omega
      have hm128 : m % 128 = m := Nat.mod_eq_of_lt (by omega)
      have hchunklt : m * 2 ^ shift < 2 ^ 32 := by
        have : (2 : Nat) ^ 31 < 2 ^ 32 := by norm_num
        omega
      have hchunk32 : m * 2 ^ shift % 2 ^ 32 = m * 2 ^ shift :=
        Nat.mod_eq_of_lt hchunklt
      have hlor : Nat.lor bits (m * 2 ^ shift) = bits + m * 2 ^ shift :=
        lor_mul_two_pow shift bits m hb
      simp only [read7Aux, if_neg hguard, hbyte, hm128, hchunk32, hlor, hmod,
        if_neg hc]
      rw [toInt32_small _ hv]
      simp

theorem read7_encode7_roundtrip (n : Nat) (pre post : List Nat) (h : n < 2 ^ 31) :
    read7BitEncodedInt (pre ++ encode7BitInt n ++ post) pre.length
      = ((n : Int), pre.length + (encode7BitInt n).length) := by
  have h5 : n < 128 ^ 5 := by
    have : (128 : Nat) ^ 5 = 2 ^ 35 := by norm_num
    rw [this]
    have : (2 : Nat) ^ 31 < 2 ^ 35 := by norm_num
    omega
  have hstab : encode7BitInt n = encode7Aux 5 n := encode7Aux_stable 5 40 n h5 (by omega)
  rw [read7BitEncodedInt, hstab]
  have := read7Aux_encode 5 n 0 0 6 pre post h5 (by norm_num) (by simpa using h) (by norm_num) (by norm_num)
  simpa using this

/-! ## Claim theorems -/

/-- Claim C1 (code bug): the claimed encode-then-decode semantic
round-trip fails already on the Boolean `true`: the encoder emits the
tag `0x66`, which is the decoder's "Int32 zero" constant, so the full
pipeline (serializeObject with 0xFF 0x01 framing and Base64, then
decode) returns the number 0 — not a semantically equal Boolean. -/
theorem C1_bool_roundtrip_evaluation :
    editorEncode (.jbool true) = "/wFm" ∧
    decodeCore (editorEncode (.jbool true)) = .success (.vint 0) ∧
    Value.vint 0 ≠ Value.vbool true := by
  refine ⟨rfl, rfl, ?_⟩
  intro h
  exact Value.noConfusion h

/-- Claim C2 (code bug): `serializeObject` emits `0x66` for `true` and
`0x67` for `false`, not the claimed `0x67`/`0x68` — an off-by-one
against the decoder's constant table that breaks its own decoder's
reading of the value. -/
theorem C2_bool_tag_evaluation :
    serializeObject (.jbool true) = [0x66] ∧
    serializeObject (.jbool false) = [0x67] ∧
    serializeObject (.jbool true) ≠ [0x67] ∧
    serializeObject (.jbool false) ≠ [0x68] := by
  refine ⟨rfl, rfl, by decide, by decide⟩

/-- Claim C5 (corrected): the varint round-trip holds for all
non-negative integers below `2 ^ 31` (not the claimed `2 ^ 35`), at any
position in any surrounding buffer, and consumes exactly the octets
written. -/
theorem C5_varint_roundtrip_amended (n : Nat) (pre post : List Nat) (h : n < 2 ^ 31) :
    read7BitEncodedInt (pre ++ encode7BitInt n ++ post) pre.length
      = ((n : Int), pre.length + (encode7BitInt n).length) :=
  read7_encode7_roundtrip n pre post h

/-- Witness for C5: the round-trip theorem applied at `n = 300` inside
a surrounding buffer. -/
theorem C5_varint_roundtrip_amended_witness :
    read7BitEncodedInt ([7] ++ encode7BitInt 300 ++ [9]) 1
      = (300, 1 + (encode7BitInt 300).length) ∧
    encode7BitInt 300 = [0xAC, 0x02] :=
  ⟨C5_varint_roundtrip_amended 300 [7] [9] (by norm_num), by decide⟩

/-- Counterexample for C5: at `n = 2 ^ 31` (below the claimed `2 ^ 35`
bound) the decoder returns the negative 32-bit reinterpretation, so the
claimed round-trip fails. -/
theorem C5_varint_wrap_counterexample :
    (2147483648 : Nat) < 2 ^ 35 ∧
    read7BitEncodedInt (encode7BitInt 2147483648) 0 = (-2147483648, 5) ∧
    (-2147483648 : Int) ≠ ((2147483648 : Nat) : Int) := by
  refine ⟨by norm_num, by decide, by decide⟩

/-- Claim C8 (code bug): decoding does not always terminate with a
`Value` — a SparseList whose declared length decodes to the negative
32-bit value `-1` reaches `new Array(-1)`, which throws a `RangeError`
out of the structured parser (caught only by the top-level fallback). -/
theorem C8_sparse_negative_length_crash :
    read7BitEncodedInt [0xFF, 0xFF, 0xFF, 0xFF, 0x7F] 0 = (-1, 5) ∧
    parseViewState [0xFF, 1, 0x28, 0xFF, 0xFF, 0xFF, 0xFF, 0x7F, 0] 11 ⟨[], []⟩ =
      .crash ⟨[], []⟩ :=
  ⟨by decide, rfl⟩

/-- Counterexample for C9: the empty input (a zero-length buffer after
Base64) makes the structured parse throw and the extractor yield no
content, yet `decode` returns success with a note — not the claimed
failure. -/
theorem C9_empty_input_succeeds_counterexample :
    decodeCore "" = .successNote ⟨[], [], [], none⟩ ∧
    decodeCore "" ≠ .failure := by
  refine ⟨rfl, ?_⟩
  intro h
  rw [show decodeCore "" = .successNote ⟨[], [], [], none⟩ from rfl] at h
  exact DecodeResult.noConfusion h

/-- Claim C9 (corrected): when the structured parse throws, `decode`
returns the fallback extraction with a note whenever the (deterministic,
repeated) Base64 decode succeeds — regardless of whether the extractor
yielded content; it returns failure exactly when Base64 decoding
fails. -/
theorem C9_fallback_behavior_amended :
    (∀ cleaned : String, jsAtob cleaned = none → decodeCore cleaned = .failure) ∧
    (∀ (cleaned : String) (bytes : List Nat) (st : DecState),
      jsAtob cleaned = some bytes →
      parseViewState bytes (bytes.length + 1) ⟨[], []⟩ = .crash st →
      decodeCore cleaned = .successNote (extractAllContent bytes st)) := by
  constructor
  · intro cleaned h
    unfold decodeCore
    rw [h]
  · intro cleaned bytes st h1 h2
    unfold decodeCore
    rw [h1]
    simp only [h2]

/-- Witness for C9: the amended theorem applied to a non-Base64 input
(failure) and to the empty input (success with note). -/
theorem C9_fallback_behavior_amended_witness :
    decodeCore "!!!" = .failure ∧
    decodeCore "" = .successNote (extractAllContent [] ⟨[], []⟩) :=
  ⟨C9_fallback_behavior_amended.1 "!!!" (by decide),
   C9_fallback_behavior_amended.2 "" [] ⟨[], []⟩ (by decide) rfl⟩

/-- Claim C10 (confirmed): a length-prefixed string read whose declared
octet count exceeds 100000 yields the empty string with the cursor just
past the length varint, never entering the declared payload. -/
theorem C10_readstring_overlong_clamp (data : List Nat) (pos : Nat) (L : Int) (p2 : Nat)
    (h : read7BitEncodedInt data pos = (L, p2)) (hL : 100000 < L) :
    readString data pos = ("", p2) := by
  unfold readString
  simp only [h]
  rw [if_pos (Or.inr hL)]

/-- Witness for C10: a wire varint declaring 100001 octets. -/
theorem C10_readstring_overlong_clamp_witness :
    read7BitEncodedInt [0xA1, 0x8D, 6] 0 = (100001, 3) ∧
    readString [0xA1, 0x8D, 6] 0 = ("", 3) :=
  ⟨by decide,
   C10_readstring_overlong_clamp [0xA1, 0x8D, 6] 0 100001 3 (by decide) (by decide)⟩

/-- The element loop parses at most as many elements as its iteration
budget allows. -/
theorem parseArrayLoop_length (step : Step) (dl : Nat) :
    ∀ (n pos : Nat) (st : DecState) (acc r : List Value) (pf : Nat) (sf : DecState),
      parseArrayLoop step dl n pos st acc = .ok (r, pf, sf) →
      r.length ≤ acc.length + n := by
  intro n
  induction n with
  | zero =>
    intro pos st acc r pf sf h
    simp only [parseArrayLoop] at h
    cases h
    omega
  | succ n ih =>
    intro pos st acc r pf sf h
    simp only [parseArrayLoop] at h
    by_cases hc : dl ≤ pos
    · rw [if_pos hc] at h
      cases h
      omega
    · rw [if_neg hc] at h
      cases hs : step pos st with
      | ok a =>
        rw [hs] at h
        simp only [POut.bind] at h
        have hlen := ih a.2.1 a.2.2 (acc ++ [a.1]) r pf sf h
        simp only [List.length_append, List.length_cons, List.length_nil] at hlen
        omega
      | crash s =>
        rw [hs] at h
        simp only [POut.bind] at h
        exact POut.noConfusion h
      | nofuel =>
        rw [hs] at h
        simp only [POut.bind] at h
        exact POut.noConfusion h
      | unmodeled =>
        rw [hs] at h
        simp only [POut.bind] at h
        exact POut.noConfusion h

/-- Counterexample for C3: a TypedArray (tag 0x32) with declared count
10001 does not yield an empty collection at the count varint — the
decoder parses and consumes an element.  (Wire: framing, tag 0x32, type
index 0, varint 10001, then the constant `true`.) -/
theorem C3_typedarray_unclamped_counterexample :
    parseViewState [0xFF, 1, 0x32, 0, 0x91, 0x4E, 0x67] 9 ⟨[], []⟩ =
      .ok (.vtypedArray 0 [.vbool true], 7, ⟨[], []⟩) ∧
    read7BitEncodedInt [0xFF, 1, 0x32, 0, 0x91, 0x4E, 0x67] 4 = (10001, 6) ∧
    ([Value.vbool true] : List Value) ≠ [] ∧ (7 : Nat) ≠ 6 := by
  refine ⟨rfl, by decide, by simp, by decide⟩

/-- Claim C3 (corrected): the 10000-clamp holds for Array/StringArray
(0x14/0x15), ArrayList (0x16) and Hashtable/HybridDictionary
(0x17/0x18), with the cursor left just past the count varint; a
SparseList (0x28) clamps its declared length, with the cursor past both
the length and count varints; a TypedArray (0x32) has no 10000 clamp —
it parses up to 1000 elements. -/
theorem C3_collection_clamp_amended :
    (∀ (step : Step) (data : List Nat) (pos : Nat) (st : DecState) (n : Int) (p2 : Nat),
      read7BitEncodedInt data pos = (n, p2) → 10000 < n →
      parseArray step data pos st = .ok (.vlist [], p2, st) ∧
      parseArrayList step data pos st = .ok (.vlist [], p2, st) ∧
      parseHashtable step data pos st = .ok (.vobj [], p2, st)) ∧
    (∀ (step : Step) (data : List Nat) (pos : Nat) (st : DecState) (L : Int) (p1 : Nat)
      (cnt : Int) (p2 : Nat),
      read7BitEncodedInt data pos = (L, p1) → read7BitEncodedInt data p1 = (cnt, p2) →
      10000 < L →
      parseSparseArray step data pos st = .ok (.vlist [], p2, st)) ∧
    (∀ (step : Step) (data : List Nat) (pos : Nat) (st : DecState) (ti : Int)
      (items : List Value) (pf : Nat) (sf : DecState),
      parseTypedArray step data pos st = .ok (.vtypedArray ti items, pf, sf) →
      items.length ≤ 1000) := by
  refine ⟨?_, ?_, ?_⟩
  · intro step data pos st n p2 h hn
    refine ⟨?_, ?_, ?_⟩
    · unfold parseArray
      simp only [h]
      rw [if_pos hn]
    · unfold parseArrayList
      simp only [h]
      rw [if_pos hn]
    · unfold parseHashtable
      simp only [h]
      rw [if_pos hn]
  · intro step data pos st L p1 cnt p2 h1 h2 hL
    unfold parseSparseArray
    simp only [h1, h2]
    rw [if_pos hL]
  · intro step data pos st ti items pf sf h
    unfold parseTypedArray at h
    dsimp only at h
    generalize hrt : read7BitEncodedInt data pos = rt at h
    generalize hrl : read7BitEncodedInt data rt.2 = rl at h
    cases hloop : parseArrayLoop step data.length (min rl.1 1000).toNat rl.2 st [] with
    | ok a =>
      rw [hloop] at h
      simp only [POut.bind] at h
      cases h
      have hlen := parseArrayLoop_length step data.length _ _ _ _ _ _ _ hloop
      simp only [List.length_nil] at hlen
      have hmin : min rl.1 1000 ≤ (1000 : Int) := min_le_right _ _
      omega
    | crash s =>
      rw [hloop] at h
      simp only [POut.bind] at h
      exact POut.noConfusion h
    | nofuel =>
      rw [hloop] at h
      simp only [POut.bind] at h
      exact POut.noConfusion h
    | unmodeled =>
      rw [hloop] at h
      simp only [POut.bind] at h
      exact POut.noConfusion h

/-- Witness for C3: the clamp conclusions at a concrete wire (varint
10001) for the clamped tags, and the 1000-element bound at a concrete
TypedArray parse. -/
theorem C3_collection_clamp_amended_witness :
    parseArray (fun _ _ => POut.nofuel) [0x91, 0x4E] 0 ⟨[], []⟩ =
      .ok (.vlist [], 2, ⟨[], []⟩) ∧
    parseHashtable (fun _ _ => POut.nofuel) [0x91, 0x4E] 0 ⟨[], []⟩ =
      .ok (.vobj [], 2, ⟨[], []⟩) ∧
    parseSparseArray (fun _ _ => POut.nofuel) [0x91, 0x4E, 0] 0 ⟨[], []⟩ =
      .ok (.vlist [], 3, ⟨[], []⟩) ∧
    ([Value.vbool true] : List Value).length ≤ 1000 :=
  ⟨(C3_collection_clamp_amended.1 _ [0x91, 0x4E] 0 ⟨[], []⟩ 10001 2 (by decide)
      (by decide)).1,
   (C3_collection_clamp_amended.1 _ [0x91, 0x4E] 0 ⟨[], []⟩ 10001 2 (by decide)
      (by decide)).2.2,
   C3_collection_clamp_amended.2.1 _ [0x91, 0x4E, 0] 0 ⟨[], []⟩ 10001 2 0 3
      (by decide) (by decide) (by decide),
   C3_collection_clamp_amended.2.2 (fun q s => parseObject [0, 0x91, 0x4E, 0x67] 5 q s)
      [0, 0x91, 0x4E, 0x67] 0 ⟨[], []⟩ 0 [.vbool true] 4 ⟨[], []⟩ rfl⟩

/-- Counterexample for C4: a 0x1E write can intern the empty string
(declared length 0); a 0x1F read of that index then yields the sentinel
`<StringRef:0>` instead of the interned Text, because the empty string
is falsy in JS.  (Wire: framing, Pair, 0x1E with length 0, 0x1F index
0.) -/
theorem C4_interned_empty_string_counterexample :
    parseViewState [0xFF, 1, 0x0F, 0x1E, 0, 0x1F, 0] 9 ⟨[], []⟩ =
      .ok (.vpair (.vstr "") (.vstr "<StringRef:0>"), 7, ⟨[""], []⟩) ∧
    "<StringRef:0>" ≠ "" := by
  refine ⟨rfl, by decide⟩

/-- Claim C4 (corrected): a 0x1E write appends the read Text to the
string table and yields it; a 0x1F read at index `i` resolves to the
`i`-th interned Text (0-based, write order) when that Text is non-empty,
and yields the sentinel `<StringRef:i>` when the index is out of range
(at or above the table size, or negative) or when the interned Text at
`i` is the empty string. -/
theorem C4_intern_resolution_amended :
    (∀ (data : List Nat) (pos : Nat) (st : DecState) (fuel : Nat) (s : String) (p2 : Nat),
      pos < data.length → data.getD pos 0 = 0x1E → readString data (pos + 1) = (s, p2) →
      parseObject data (fuel + 1) pos st =
        .ok (.vstr s, p2, ⟨st.stringTable ++ [s], st.typeTable⟩)) ∧
    (∀ (data : List Nat) (pos : Nat) (st : DecState) (fuel : Nat) (i : Int) (p2 : Nat),
      pos < data.length → data.getD pos 0 = 0x1F →
      read7BitEncodedInt data (pos + 1) = (i, p2) →
      parseObject data (fuel + 1) pos st =
        .ok (.vstr (stringRefLookup st.stringTable i), p2, st)) ∧
    (∀ (tbl : List String) (i : Nat), i < tbl.length → tbl.getD i "" ≠ "" →
      stringRefLookup tbl (i : Int) = tbl.getD i "") ∧
    (∀ (tbl : List String) (i : Int),
      (tbl.length : Int) ≤ i ∨ i < 0 ∨
        (0 ≤ i ∧ i.toNat < tbl.length ∧ tbl.getD i.toNat "" = "") →
      stringRefLookup tbl i = "<StringRef:" ++ toString i ++ ">") := by
  refine ⟨?_, ?_, ?_, ?_⟩
  · intro data pos st fuel s p2 h1 h2 h3
    simp only [parseObject, if_neg (by omega : ¬ data.length ≤ pos), h2, h3]
  · intro data pos st fuel i p2 h1 h2 h3
    simp only [parseObject, if_neg (by omega : ¬ data.length ≤ pos), h2, h3]
  · intro tbl i hi hne
    unfold stringRefLookup
    rw [if_pos (by omega : (0 : Int) ≤ (i : Int))]
    have ht : ((i : Int)).toNat = i := Int.toNat_natCast i
    rw [ht]
    have hg : tbl.get? i = some (tbl.getD i "") := by
      rw [List.get?_eq_getElem?, List.getD_eq_getElem?_getD]
      rw [List.getElem?_eq_getElem hi]
      rfl
    rw [hg]
    simp only [if_neg hne]
  · intro tbl i hcase
    unfold stringRefLookup
    rcases hcase with hbig | hneg | ⟨hpos, hlt, hemp⟩
    · rw [if_pos (by omega : (0 : Int) ≤ i)]
      have hnone : tbl.get? i.toNat = none := by
        rw [List.get?_eq_getElem?, List.getElem?_eq_none]
        omega
      rw [hnone]
    · rw [if_neg (by omega : ¬ (0 : Int) ≤ i)]
    · rw [if_pos hpos]
      have hg : tbl.get? i.toNat = some (tbl.getD i.toNat "") := by
        rw [List.get?_eq_getElem?, List.getD_eq_getElem?_getD]
        rw [List.getElem?_eq_getElem hlt]
        rfl
      rw [hg, hemp]
      simp

/-- Witness for C4: the amended theorem applied at a concrete write, a
concrete resolving read, a concrete resolution, and a concrete
out-of-range sentinel. -/
theorem C4_intern_resolution_amended_witness :
    parseObject [0x1E, 1, 0x61] 3 0 ⟨[], []⟩ =
      .ok (.vstr "a", 3, ⟨["a"], []⟩) ∧
    parseObject [0x1F, 0] 3 0 ⟨["a"], []⟩ =
      .ok (.vstr (stringRefLookup ["a"] 0), 2, ⟨["a"], []⟩) ∧
    stringRefLookup ["a"] ((0 : Nat) : Int) = (["a"].getD 0 "") ∧
    stringRefLookup ["a"] 5 = "<StringRef:5>" :=
  ⟨C4_intern_resolution_amended.1 [0x1E, 1, 0x61] 0 ⟨[], []⟩ 2 "a" 3 (by decide)
      (by decide) (by decide),
   C4_intern_resolution_amended.2.1 [0x1F, 0] 0 ⟨["a"], []⟩ 2 0 2 (by decide)
      (by decide) (by decide),
   C4_intern_resolution_amended.2.2.1 ["a"] 0 (by decide) (by decide),
   C4_intern_resolution_amended.2.2.2 ["a"] 5 (Or.inl (by decide))⟩

/-- A guarded in-place set does not change the list's length. -/
theorem jsListSet_length (l : List Value) (i : Int) (v : Value) :
    (jsListSet l i v).length = l.length := by
  unfold jsListSet
  split
  · simp
  · rfl

/-- Applying a batch of (index, value) entries preserves the length. -/
theorem applyEntries_length (entries : List (Int × Value)) :
    ∀ init : List Value,
      (entries.foldl (fun l e => jsListSet l e.1 e.2) init).length = init.length := by
  induction entries with
  | nil => intro init; rfl
  | cons e rest ih =>
    intro init
    simp only [List.foldl_cons]
    rw [ih (jsListSet init e.1 e.2), jsListSet_length]

/-- A position named by no entry keeps its initial element. -/
theorem applyEntries_getD_of_miss (entries : List (Int × Value)) :
    ∀ (init : List Value) (j : Nat),
      (∀ e ∈ entries, e.1 ≠ (j : Int)) →
      (entries.foldl (fun l e => jsListSet l e.1 e.2) init).getD j .vnull =
        init.getD j .vnull := by
  induction entries with
  | nil => intro init j _; rfl
  | cons e rest ih =>
    intro init j hmiss
    simp only [List.foldl_cons]
    rw [ih (jsListSet init e.1 e.2) j (fun x hx => hmiss x (List.mem_cons_of_mem e hx))]
    unfold jsListSet
    split
    · rename_i hin
      have hne : e.1.toNat ≠ j := by
        intro hcontra
        have : e.1 = (j : Int) := by omega
        exact hmiss e (List.mem_cons_self e rest) this
      rw [List.getD_eq_getElem?_getD, List.getD_eq_getElem?_getD]
      rw [List.getElem?_set_ne hne]
    · rfl

/-- Trace of the sparse entry loop: a successful run applies a batch of
parsed (index, value) entries to the initial list. -/
theorem parseSparseLoop_trace (step : Step) (data : List Nat) :
    ∀ (n pos : Nat) (st : DecState) (arr r : List Value) (pf : Nat) (sf : DecState),
      parseSparseLoop step data n pos st arr = .ok (r, pf, sf) →
      ∃ entries : List (Int × Value),
        r = entries.foldl (fun l e => jsListSet l e.1 e.2) arr := by
  intro n
  induction n with
  | zero =>
    intro pos st arr r pf sf h
    simp only [parseSparseLoop] at h
    cases h
    exact ⟨[], rfl⟩
  | succ n ih =>
    intro pos st arr r pf sf h
    simp only [parseSparseLoop] at h
    by_cases hc : data.length ≤ pos
    · rw [if_pos hc] at h
      cases h
      exact ⟨[], rfl⟩
    · rw [if_neg hc] at h
      cases hs : step (read7BitEncodedInt data pos).2 st with
      | ok a =>
        rw [hs] at h
        simp only [POut.bind] at h
        obtain ⟨entries, hE⟩ := ih a.2.1 a.2.2
          (jsListSet arr (read7BitEncodedInt data pos).1 a.1) r pf sf h
        exact ⟨((read7BitEncodedInt data pos).1, a.1) :: entries, by
          simpa using hE⟩
      | crash s =>
        rw [hs] at h
        simp only [POut.bind] at h
        exact POut.noConfusion h
      | nofuel =>
        rw [hs] at h
        simp only [POut.bind] at h
        exact POut.noConfusion h
      | unmodeled =>
        rw [hs] at h
        simp only [POut.bind] at h
        exact POut.noConfusion h

/-- Counterexample for C6: a SparseList with declared length 1001 (at
most 10000) and no entries decodes to a dense list of only 1000 nulls —
`new Array(Math.min(length, 1000))` caps the materialized length at
1000, not at the declared length. -/
theorem C6_sparse_declared_length_counterexample :
    parseViewState [0xFF, 1, 0x28, 0xE9, 7, 0] 8 ⟨[], []⟩ =
      .ok (.vlist (List.replicate 1000 .vnull), 6, ⟨[], []⟩) ∧
    read7BitEncodedInt [0xFF, 1, 0x28, 0xE9, 7, 0] 3 = (1001, 5) ∧
    (List.replicate 1000 Value.vnull).length ≠ 1001 := by
  refine ⟨?_, by decide, by rw [List.length_replicate]; decide⟩
  show parseObject [0xFF, 1, 0x28, 0xE9, 7, 0] 8 2 ⟨[], []⟩ = _
  have h1 : read7BitEncodedInt [0xFF, 1, 0x28, 0xE9, 7, 0] 3 = (1001, 5) := by decide
  have h2 : read7BitEncodedInt [0xFF, 1, 0x28, 0xE9, 7, 0] 5 = (0, 6) := by decide
  simp only [parseObject, parseSparseArray, parseSparseLoop,
    show ([0xFF, 1, 0x28, 0xE9, 7, 0] : List Nat).getD 2 0 = 0x28 from rfl,
    h1, h2, POut.bind]
  rw [if_neg (by decide : ¬ ([0xFF, 1, 0x28, 0xE9, 7, 0] : List Nat).length ≤ 2),
    if_neg (by decide : ¬ (10000 : Int) < 1001), if_neg (by decide : ¬ (1001 : Int) < 0),
    show (Int.toNat 1001 ⊓ 1000) = 1000 from by decide]

/-- Claim C6 (corrected): a SparseList with declared length `L` at most
10000 decodes to a dense list of exactly `min(L, 1000)` elements (not
`L`) obtained by applying the parsed (index, value) entries to a
null-filled list, so every position named by no entry is Null; a
declared length above 10000 yields an empty list. -/
theorem C6_sparse_dense_amended :
    (∀ (step : Step) (data : List Nat) (pos : Nat) (st : DecState) (L : Int) (p1 : Nat)
      (cnt : Int) (p2 : Nat),
      read7BitEncodedInt data pos = (L, p1) → read7BitEncodedInt data p1 = (cnt, p2) →
      10000 < L →
      parseSparseArray step data pos st = .ok (.vlist [], p2, st)) ∧
    (∀ (step : Step) (data : List Nat) (pos : Nat) (st : DecState) (L : Int) (p1 : Nat)
      (cnt : Int) (p2 : Nat) (r : List Value) (pf : Nat) (sf : DecState),
      read7BitEncodedInt data pos = (L, p1) → read7BitEncodedInt data p1 = (cnt, p2) →
      0 ≤ L → L ≤ 10000 →
      parseSparseArray step data pos st = .ok (.vlist r, pf, sf) →
      r.length = min L.toNat 1000 ∧
      ∃ entries : List (Int × Value),
        r = entries.foldl (fun l e => jsListSet l e.1 e.2)
              (List.replicate (min L.toNat 1000) .vnull) ∧
        ∀ j, j < r.length → (∀ e ∈ entries, e.1 ≠ (j : Int)) →
          r.getD j .vnull = .vnull) := by
  constructor
  · intro step data pos st L p1 cnt p2 h1 h2 hL
    unfold parseSparseArray
    simp only [h1, h2]
    rw [if_pos hL]
  · intro step data pos st L p1 cnt p2 r pf sf h1 h2 hL0 hL hp
    unfold parseSparseArray at hp
    dsimp only at hp
    rw [h1, h2] at hp
    rw [if_neg (by omega : ¬ 10000 < L), if_neg (by omega : ¬ L < 0)] at hp
    cases hloop : parseSparseLoop step data cnt.toNat p2 st
        (List.replicate (min L.toNat 1000) .vnull) with
    | ok a =>
      rw [hloop] at hp
      simp only [POut.bind] at hp
      cases hp
      obtain ⟨entries, hE⟩ := parseSparseLoop_trace step data _ _ _ _ _ _ _ hloop
      refine ⟨?_, entries, hE, ?_⟩
      · rw [hE, applyEntries_length, List.length_replicate]
      · intro j hj hmiss
        rw [hE, applyEntries_getD_of_miss entries _ j hmiss]
        rw [hE, applyEntries_length, List.length_replicate] at hj
        rw [List.getD_eq_getElem?_getD, List.getElem?_eq_getElem (by simpa using hj)]
        simp
    | crash s =>
      rw [hloop] at hp
      simp only [POut.bind] at hp
      exact POut.noConfusion hp
    | nofuel =>
      rw [hloop] at hp
      simp only [POut.bind] at hp
      exact POut.noConfusion hp
    | unmodeled =>
      rw [hloop] at hp
      simp only [POut.bind] at hp
      exact POut.noConfusion hp

/-- Witness for C6: the dense-semantics conclusion at a concrete
SparseList (declared length 5, one entry at index 2). -/
theorem C6_sparse_dense_amended_witness :
    (List.replicate 1 Value.vnull).length = min (1 : Int).toNat 1000 ∧
    ((([.vnull, .vnull, .vbool true, .vnull, .vnull] : List Value)).length
        = min (5 : Int).toNat 1000 ∧
      ∃ entries : List (Int × Value),
        ([.vnull, .vnull, .vbool true, .vnull, .vnull] : List Value) =
          entries.foldl (fun l e => jsListSet l e.1 e.2)
            (List.replicate (min (5 : Int).toNat 1000) .vnull) ∧
        ∀ j, j < ([.vnull, .vnull, .vbool true, .vnull, .vnull] : List Value).length →
          (∀ e ∈ entries, e.1 ≠ (j : Int)) →
          ([.vnull, .vnull, .vbool true, .vnull, .vnull] : List Value).getD j .vnull =
            .vnull) :=
  ⟨by decide,
   C6_sparse_dense_amended.2 (fun q s => parseObject [5, 1, 2, 0x67] 5 q s)
     [5, 1, 2, 0x67] 0 ⟨[], []⟩ 5 1 1 2
     [.vnull, .vnull, .vbool true, .vnull, .vnull] 4 ⟨[], []⟩
     (by decide) (by decide) (by decide) (by decide) rfl⟩

/-- Trace of the hashtable entry loop: a successful run folds a batch of
(stringified key, value) pairs into the accumulator with `jsObjInsert`. -/
theorem parseHashtableLoop_trace (step : Step) (dl : Nat) :
    ∀ (n pos : Nat) (st : DecState) (acc r : List (String × Value)) (pf : Nat)
      (sf : DecState),
      parseHashtableLoop step dl n pos st acc = .ok (r, pf, sf) →
      ∃ pairs : List (String × Value),
        r = pairs.foldl (fun o e => jsObjInsert o e.1 e.2) acc := by
  intro n
  induction n with
  | zero =>
    intro pos st acc r pf sf h
    simp only [parseHashtableLoop] at h
    cases h
    exact ⟨[], rfl⟩
  | succ n ih =>
    intro pos st acc r pf sf h
    simp only [parseHashtableLoop] at h
    by_cases hc : dl ≤ pos
    · rw [if_pos hc] at h
      cases h
      exact ⟨[], rfl⟩
    · rw [if_neg hc] at h
      cases hk : step pos st with
      | ok rk =>
        rw [hk] at h
        simp only [POut.bind] at h
        cases hv : step rk.2.1 rk.2.2 with
        | ok rv =>
          rw [hv] at h
          simp only [POut.bind] at h
          cases hj : jsToString rk.1 with
          | some ks =>
            rw [hj] at h
            obtain ⟨pairs, hE⟩ := ih rv.2.1 rv.2.2 (jsObjInsert acc ks rv.1) r pf sf h
            exact ⟨(ks, rv.1) :: pairs, by simpa using hE⟩
          | none =>
            rw [hj] at h
            exact POut.noConfusion h
        | crash s =>
          rw [hv] at h
          simp only [POut.bind] at h
          exact POut.noConfusion h
        | nofuel =>
          rw [hv] at h
          simp only [POut.bind] at h
          exact POut.noConfusion h
        | unmodeled =>
          rw [hv] at h
          simp only [POut.bind] at h
          exact POut.noConfusion h
      | crash s =>
        rw [hk] at h
        simp only [POut.bind] at h
        exact POut.noConfusion h
      | nofuel =>
        rw [hk] at h
        simp only [POut.bind] at h
        exact POut.noConfusion h
      | unmodeled =>
        rw [hk] at h
        simp only [POut.bind] at h
        exact POut.noConfusion h

/-- Folding fresh non-array-index keys appends them in order. -/
theorem foldl_jsObjInsert_keys :
    ∀ (pairs acc : List (String × Value)),
      (∀ e ∈ pairs, arrayIndexStr e.1 = none) →
      (acc.map Prod.fst ++ pairs.map Prod.fst).Nodup →
      (pairs.foldl (fun o e => jsObjInsert o e.1 e.2) acc).map Prod.fst =
        acc.map Prod.fst ++ pairs.map Prod.fst := by
  intro pairs
  induction pairs with
  | nil =>
    intro acc _ _
    simp
  | cons e rest ih =>
    intro acc hidx hnodup
    simp only [List.foldl_cons]
    have hmem : e.1 ∉ acc.map Prod.fst := by
      rw [List.nodup_append] at hnodup
      intro hin
      exact hnodup.2.2 hin (by simp)
    have hany : ¬ (acc.any fun x => x.1 = e.1) = true := by
      intro hany
      rw [List.any_eq_true] at hany
      obtain ⟨x, hx, hxe⟩ := hany
      exact hmem (List.mem_map.mpr ⟨x, hx, by simpa using hxe⟩)
    have hins : jsObjInsert acc e.1 e.2 = acc ++ [(e.1, e.2)] := by
      unfold jsObjInsert
      rw [if_neg hany, hidx e (List.mem_cons_self _ _)]
    rw [hins]
    have hassoc : (acc ++ [(e.1, e.2)]).map Prod.fst ++ rest.map Prod.fst =
        acc.map Prod.fst ++ (e :: rest).map Prod.fst := by
      simp
    have hrec := ih (acc ++ [(e.1, e.2)])
      (fun x hx => hidx x (List.mem_cons_of_mem _ hx))
      (by rw [hassoc]; exact hnodup)
    rw [hrec]
    simp

/-- Counterexample for C7: a Hashtable wire writing the keys "1" then
"0" decodes to a Map that enumerates "0" before "1" — JS objects hoist
canonical array-index keys into ascending numeric order, so the
written-on-the-wire order is not preserved for numeric-string keys. -/
theorem C7_numeric_key_order_counterexample :
    parseViewState [0xFF, 1, 0x17, 2, 5, 1, 49, 3, 7, 5, 1, 48, 3, 9] 20 ⟨[], []⟩ =
      .ok (.vobj [("0", .vint 9), ("1", .vint 7)], 14, ⟨[], []⟩) ∧
    (["0", "1"] : List String) ≠ ["1", "0"] := by
  refine ⟨rfl, by decide⟩

/-- Claim C7 (corrected): the decoded Map is the `jsObjInsert`-fold of
the parsed (key, value) pairs in wire order, and that fold preserves the
wire order of the keys exactly when no stringified key is a canonical
array-index string (and keys are distinct); array-index keys are instead
enumerated first in ascending numeric order. -/
theorem C7_map_key_order_amended :
    (∀ (step : Step) (dl n pos : Nat) (st : DecState)
      (acc r : List (String × Value)) (pf : Nat) (sf : DecState),
      parseHashtableLoop step dl n pos st acc = .ok (r, pf, sf) →
      ∃ pairs : List (String × Value),
        r = pairs.foldl (fun o e => jsObjInsert o e.1 e.2) acc) ∧
    (∀ pairs : List (String × Value),
      (∀ e ∈ pairs, arrayIndexStr e.1 = none) →
      (pairs.map Prod.fst).Nodup →
      (pairs.foldl (fun o e => jsObjInsert o e.1 e.2) []).map Prod.fst =
        pairs.map Prod.fst) := by
  constructor
  · intro step dl n pos st acc r pf sf h
    exact parseHashtableLoop_trace step dl n pos st acc r pf sf h
  · intro pairs hidx hnodup
    have := foldl_jsObjInsert_keys pairs [] hidx (by simpa using hnodup)
    simpa using this

/-- Witness for C7: the loop trace at a concrete (empty) run, and the
order-preservation conclusion at concrete non-numeric keys written in
the order "b", "a". -/
theorem C7_map_key_order_amended_witness :
    (∃ pairs : List (String × Value),
      ([("a", Value.vint 1)] : List (String × Value)) =
        pairs.foldl (fun o e => jsObjInsert o e.1 e.2) [("a", Value.vint 1)]) ∧
    (([("b", Value.vnull), ("a", Value.vnull)] : List (String × Value)).foldl
        (fun o e => jsObjInsert o e.1 e.2) []).map Prod.fst = ["b", "a"] :=
  ⟨C7_map_key_order_amended.1 (fun _ _ => POut.nofuel) 0 0 0 ⟨[], []⟩
      [("a", Value.vint 1)] [("a", Value.vint 1)] 0 ⟨[], []⟩ rfl,
   C7_map_key_order_amended.2 [("b", Value.vnull), ("a", Value.vnull)]
      (by intro e he; fin_cases he <;> decide) (by decide)⟩

end ViewState
